import Mathlib

set_option maxRecDepth 8000

namespace VmDevice

/-- Size of the u64 domain, two to the sixty-fourth power. -/
def U64 : Nat := 18446744073709551616

/-- Wrapping u64 addition, modelling `unchecked_add` in release mode. -/
def wadd (a b : Nat) : Nat := (a + b) % U64

/-- Wrapping u64 subtraction, modelling `unchecked_sub` in release mode. -/
def wsub (a b : Nat) : Nat := (a + (U64 - b % U64)) % U64

/-- Checked u64 addition, modelling `checked_add`: `none` on overflow past u64::MAX. -/
def checked_add (a b : Nat) : Option Nat := if a + b < U64 then some (a + b) else none

/-- Model of `u64::is_power_of_two`. -/
def is_power_of_two (n : Nat) : Bool := n != 0 && (n &&& (n - 1)) == 0

/-- Model of `BTreeMap<GuestAddress, GuestUsize>` insertion on a key-sorted
association list: when the key is already present the stored value is replaced
(Rust `BTreeMap::insert` semantics); otherwise the pair is inserted in order. -/
def btreeInsert (k v : Nat) : List (Nat × Nat) → List (Nat × Nat)
  | [] => [(k, v)]
  | (a, s) :: rest =>
    if k < a then (k, v) :: (a, s) :: rest
    else if k = a then (k, v) :: rest
    else (a, s) :: btreeInsert k v rest

/-- Model of `BTreeMap::get`. -/
def btreeGet (k : Nat) : List (Nat × Nat) → Option Nat
  | [] => none
  | (a, s) :: rest => if k = a then some s else btreeGet k rest

/-- Model of `BTreeMap::remove` (the returned old value is unused by the source). -/
def btreeRemove (k : Nat) : List (Nat × Nat) → List (Nat × Nat)
  | [] => []
  | (a, s) :: rest => if k = a then rest else (a, s) :: btreeRemove k rest

namespace address

/-- Errors of `vm-allocator/src/address.rs`. -/
inductive Error where
  | Overflow
  | Overlap
  | UnalignedAddress
  | NullRequest
deriving DecidableEq

/-- The `AddressAllocator` struct of `vm-allocator/src/address.rs`.
Addresses are u64 values modelled as `Nat` below `U64`; `ranges` models the
`BTreeMap<GuestAddress, GuestUsize>` as a key-sorted association list. -/
structure AddressAllocator where
  base : Nat
  end_ : Nat
  alignment : Nat
  ranges : List (Nat × Nat)
deriving DecidableEq

/-- `AddressAllocator::align_address`: align up to `alignment`, `none` on u64 overflow. -/
def align_address (alignment address : Nat) : Option Nat :=
  let align_adjust := if address % alignment != 0 then alignment - address % alignment else 0
  checked_add address align_adjust

/-- `AddressAllocator::new`. -/
def AddressAllocator.new (base size : Nat) (align_size : Option Nat) : Option AddressAllocator :=
  if size = 0 then none
  else
    match checked_add base size with
    | none => none
    | some bound =>
      let alignment := align_size.getD 4
      if !(is_power_of_two alignment) || alignment == 0 then none
      else some { base := base, end_ := wsub bound 1, alignment := alignment,
                  ranges := [(bound, 0)] }

/-- The scan loop inside `AddressAllocator::available_range`, iterating the
ranges map in ascending key order while tracking `prev_end_address`. -/
def available_range_loop (aligned_address req_size : Nat) :
    Nat → List (Nat × Nat) → Except Error Nat
  | _, [] => .error .Overflow
  | prev_end_address, (address, size) :: rest =>
    if aligned_address ≤ address then
      if prev_end_address > aligned_address then .error .Overlap
      else if wsub address aligned_address < req_size then .error .Overlap
      else .ok aligned_address
    else available_range_loop aligned_address req_size (wadd address size) rest

/-- `AddressAllocator::available_range`. -/
def AddressAllocator.available_range (self : AddressAllocator)
    (req_address req_size : Nat) : Except Error Nat :=
  match align_address self.alignment req_address with
  | none => .error .Overflow
  | some aligned_address =>
    if aligned_address ≠ req_address then .error .UnalignedAddress
    else if aligned_address > self.end_ ∨ aligned_address < self.base then .error .Overflow
    else available_range_loop aligned_address req_size self.base self.ranges

/-- The scan loop inside `AddressAllocator::first_available_range`. -/
def first_available_range_loop (alignment req_size : Nat) :
    Nat → List (Nat × Nat) → Except Error Nat
  | _, [] => .error .Overflow
  | prev_end_address, (address, size) :: rest =>
    match align_address alignment prev_end_address with
    | none => .error .Overflow
    | some prev_end_align =>
      if wsub address prev_end_align ≥ req_size then
        match align_address alignment req_size with
        | none => .error .Overflow
        | some req_align =>
          match align_address alignment (wsub address req_align) with
          | none => .error .Overflow
          | some addr => .ok addr
      else first_available_range_loop alignment req_size (wadd address size) rest

/-- `AddressAllocator::first_available_range`. -/
def AddressAllocator.first_available_range (self : AddressAllocator)
    (req_size : Nat) : Except Error Nat :=
  first_available_range_loop self.alignment req_size self.base self.ranges

/-- `AddressAllocator::allocate`. Returns the result together with the
post-call allocator state (the mutated `self`). -/
def AddressAllocator.allocate (self : AddressAllocator) (address : Option Nat)
    (size : Nat) : Except Error Nat × AddressAllocator :=
  if size = 0 then (.error .NullRequest, self)
  else
    match (match address with
           | some req_address => self.available_range req_address size
           | none => self.first_available_range size) with
    | .error e => (.error e, self)
    | .ok new_addr =>
      (.ok new_addr, { self with ranges := btreeInsert new_addr size self.ranges })

/-- `AddressAllocator::free`. -/
def AddressAllocator.free (self : AddressAllocator) (address size : Nat) :
    AddressAllocator :=
  if address = self.end_ ∨ size = 0 then self
  else
    match btreeGet address self.ranges with
    | some range_size =>
      if size = range_size then { self with ranges := btreeRemove address self.ranges }
      else self
    | none => self

end address

namespace resource

/-- Errors of `vm-allocator/src/resource.rs`. -/
inductive Error where
  | OutofScope
  | Overflow
  | Duplicated
  | Invalid
deriving DecidableEq

/-- Model of a `Box<dyn Resource<V = u32>>` trait object: the dynamic `name()`
together with the `raw_value()`. -/
structure Resource where
  name : String
  raw_value : Nat
deriving DecidableEq

end resource

namespace id

/-- Size of the u32 domain. -/
def U32 : Nat := 4294967296

/-- The `IdAllocator` struct of `vm-allocator/src/id.rs`. `Id` values are u32,
modelled as `Nat`; `used` is the `Vec<Id>` kept in ascending order. -/
structure IdAllocator where
  start : Nat
  end_ : Nat
  used : List Nat
deriving DecidableEq

/-- `IdAllocator::new` (unconditionally succeeds). -/
def IdAllocator.new (start end_ : Nat) : Option IdAllocator :=
  some { start := start, end_ := end_, used := [] }

/-- The scan loop of `IdAllocator::first_usable_number`, tracking `previous`;
u32 `checked_add(1)` fails exactly at u32::MAX. -/
def first_usable_number_loop (end_ : Nat) : Nat → List Nat → Except resource.Error Nat
  | previous, [] => if previous ≤ end_ then .ok previous else .error .Overflow
  | previous, x :: rest =>
    if x > previous then .ok previous
    else if x + 1 < U32 then first_usable_number_loop end_ (x + 1) rest
    else .error .Overflow

/-- `IdAllocator::first_usable_number`. -/
def IdAllocator.first_usable_number (self : IdAllocator) : Except resource.Error Nat :=
  if self.used.isEmpty then .ok self.start
  else first_usable_number_loop self.end_ self.start self.used

/-- Insertion of a number into a sorted list. -/
def sortInsert (x : Nat) : List Nat → List Nat
  | [] => [x]
  | y :: rest => if x ≤ y then x :: y :: rest else y :: sortInsert x rest

/-- Insertion sort. On a list of numbers this is the same result as
`Vec::sort` (the sorted permutation of a list of naturals is unique). -/
def sortList (l : List Nat) : List Nat := l.foldr sortInsert []

/-- `<IdAllocator as IdResourceAllocator>::name`. -/
def IdAllocator.name (_ : IdAllocator) : String := "id"

/-- `<IdAllocator as IdResourceAllocator>::allocate`. The result carries the
`raw_value` of the boxed `Id` together with the post-call state; the source
pushes the new id and re-sorts `used`. -/
def IdAllocator.allocate (self : IdAllocator) (resource : Option VmDevice.resource.Resource) :
    Except VmDevice.resource.Error Nat × IdAllocator :=
  match resource with
  | some res =>
    if res.name ≠ self.name then (.error .Invalid, self)
    else
      let value := res.raw_value
      if value < self.start ∨ value > self.end_ then (.error .OutofScope, self)
      else
        match self.used.find? (fun x => x == value) with
        | some _ => (.error .Duplicated, self)
        | none => (.ok value, { self with used := sortList (self.used ++ [value]) })
  | none =>
    match self.first_usable_number with
    | .error e => (.error e, self)
    | .ok ret => (.ok ret, { self with used := sortList (self.used ++ [ret]) })

/-- `<IdAllocator as IdResourceAllocator>::free`: binary-search on the sorted
`used` and remove the hit, a no-op when the id is absent. -/
def IdAllocator.free (self : IdAllocator) (res : resource.Resource) : IdAllocator :=
  { self with used := self.used.eraseP (fun x => x == res.raw_value) }

end id

namespace system

/-- Errors of `vm-allocator/src/system.rs`. -/
inductive Error where
  | Exist
deriving DecidableEq

/-- The `SystemAllocator` struct: name-keyed registries of address-valued and
id-valued allocators (the trait objects are modelled by the one concrete
implementation of each trait in the crate). -/
structure SystemAllocator where
  addr_alloc : List (String × address.AddressAllocator)
  id_alloc : List (String × id.IdAllocator)
deriving DecidableEq

/-- `SystemAllocator::new`. -/
def SystemAllocator.new : SystemAllocator := ⟨[], []⟩

/-- `SystemAllocator::add_addr_allocator`. -/
def SystemAllocator.add_addr_allocator (self : SystemAllocator) (allocator_name : String)
    (allocator : address.AddressAllocator) : Except Error Unit × SystemAllocator :=
  if (self.addr_alloc.lookup allocator_name).isSome then (.error .Exist, self)
  else (.ok (), { self with addr_alloc := (allocator_name, allocator) :: self.addr_alloc })

/-- `SystemAllocator::add_id_allocator`. -/
def SystemAllocator.add_id_allocator (self : SystemAllocator) (allocator_name : String)
    (allocator : id.IdAllocator) : Except Error Unit × SystemAllocator :=
  if (self.id_alloc.lookup allocator_name).isSome then (.error .Exist, self)
  else (.ok (), { self with id_alloc := (allocator_name, allocator) :: self.id_alloc })

/-- `SystemAllocator::allocate_id`: the source body ignores `_allocator_id`
and the registered pools and returns `Ok(Box::new(Id(10)))` unconditionally. -/
def SystemAllocator.allocate_id (self : SystemAllocator) (_allocator_id : String) :
    Except Error Nat × SystemAllocator :=
  (.ok 10, self)

end system

namespace device

/-- `IoType` from `src/device.rs`. -/
inductive IoType where
  | Pio
  | Mmio
  | PhysicalMmio
deriving DecidableEq

/-- Model of an `Arc<dyn Device>` trait object: the handle identity of the
`Arc` pointer plus the reported `name()`; the read/write bodies play no part
in the registration claims. -/
structure Device where
  id : Nat
  name : String
deriving DecidableEq

/-- Modelled from the spec: `VmResource` is imported by
`src/device_manager.rs` from `vm_allocator` but is defined nowhere under
`src/`; its three variants and payloads are reconstructed from the spec's
resource-request data model (address requests, interrupt requests, instance
ids) and from the match arms of `register_resources` and
`unregister_resources`. -/
inductive VmResource where
  | Address (addr : Nat) (size : Nat) (ty : IoType)
  | Interrupt (ty : Nat) (base : Nat) (count : Nat)
  | Id (id : Nat)
deriving DecidableEq

/-- `DeviceDescriptor` from `src/device.rs`, with the resource list holding
the `VmResource` values the manager registers. -/
structure DeviceDescriptor where
  name : String
  device : Nat
  parent_bus : Option Nat
  resources : List VmResource
deriving DecidableEq

end device

namespace device_manager

/-- `Error` from `src/device_manager.rs`. The interrupt-failure arm of
`register_resources` returns a variant `IrqSrcGrpCreateError` that the source
enum does not declare (the file does not compile as written); the variant is
included so that arm can be translated as written. -/
inductive Error where
  | DeviceOverlap
  | DeviceExist
  | DeviceNonExist
  | IrqSrcGrpCreateError
deriving DecidableEq

/-- `BTreeMap<Range, Arc<dyn Device>>::insert` where `Range` keys are ordered
and compared by range start only: when an entry with the same start exists its
VALUE is replaced, the stored key (including its size component) is kept, and
the old value is returned. Entries are `(start, stored key size, device id)`,
kept sorted by start. -/
def busInsert (start size dev : Nat) :
    List (Nat × Nat × Nat) → Option Nat × List (Nat × Nat × Nat)
  | [] => (none, [(start, size, dev)])
  | (a, s, d) :: rest =>
    if start = a then (some d, (a, s, dev) :: rest)
    else if start < a then (none, (start, size, dev) :: (a, s, d) :: rest)
    else
      let r := busInsert start size dev rest
      (r.1, (a, s, d) :: r.2)

/-- `BTreeMap<Range, _>::remove`, keyed by range start. -/
def busRemove (start : Nat) : List (Nat × Nat × Nat) → List (Nat × Nat × Nat)
  | [] => []
  | (a, s, d) :: rest => if start = a then rest else (a, s, d) :: busRemove start rest

/-- The `DeviceManager` struct of `src/device_manager.rs`: the name-keyed
descriptor registry and the two range-keyed dispatch maps. The interrupt
manager is passed to the registration operations as the `create_group`
capability. -/
structure DeviceManager where
  devices : List (String × device.DeviceDescriptor)
  mmio_bus : List (Nat × Nat × Nat)
  pio_bus : List (Nat × Nat × Nat)
deriving DecidableEq

/-- `DeviceManager::insert`. -/
def DeviceManager.insert (self : DeviceManager) (dev : device.DeviceDescriptor) :
    Except Error Unit × DeviceManager :=
  if (self.devices.lookup dev.name).isSome then (.error .DeviceExist, self)
  else (.ok (), { self with devices := (dev.name, dev) :: self.devices })

/-- `DeviceManager::remove`. -/
def DeviceManager.remove (self : DeviceManager) (name : String) :
    Option device.DeviceDescriptor × DeviceManager :=
  match self.devices.lookup name with
  | some d => (some d, { self with devices := self.devices.eraseP (fun p => p.1 == name) })
  | none => (none, self)

/-- `DeviceManager::unregister_resources`: erase the dispatch entry of every
PIO/MMIO address resource, skipping `PhysicalMmio`, ids and interrupts. -/
def DeviceManager.unregister_resources (self : DeviceManager)
    (resources : List device.VmResource) : DeviceManager :=
  resources.foldl
    (fun st res =>
      match res with
      | .Address addr _size ty =>
        match ty with
        | .Pio => { st with pio_bus := busRemove addr st.pio_bus }
        | .Mmio => { st with mmio_bus := busRemove addr st.mmio_bus }
        | .PhysicalMmio => st
      | _ => st)
    self

/-- The loop of `DeviceManager::register_resources` over
`resources.iter().enumerate()`. `full` is the complete caller list (used for
the `resources[0..idx]` rollback), `idx` the current index, `instance_id` and
`interrupt_group` the accumulators. `create_group` is the interrupt-manager
capability, modelled from the spec (`create_group(kind, base, count) ->
group | error`) because the `InterruptManager` trait is referenced but not
defined under `src/`; `none` is its failure case. -/
def register_resources_loop (create_group : Nat → Nat → Nat → Option Nat) (dev : Nat)
    (full : List device.VmResource) :
    List device.VmResource → Nat → Nat → Option Nat → DeviceManager →
    Except Error (Nat × Option Nat) × DeviceManager
  | [], _, instance_id, interrupt_group, st => (.ok (instance_id, interrupt_group), st)
  | res :: rest, idx, instance_id, interrupt_group, st =>
    match res with
    | .Address addr size ty =>
      match ty with
      | .Pio =>
        let r := busInsert addr size dev st.pio_bus
        let st1 := { st with pio_bus := r.2 }
        match r.1 with
        | some _ =>
          let st2 := if idx > 0 then st1.unregister_resources (full.take idx) else st1
          (.error .DeviceOverlap, st2)
        | none =>
          register_resources_loop create_group dev full rest (idx + 1) instance_id
            interrupt_group st1
      | .Mmio =>
        let r := busInsert addr size dev st.mmio_bus
        let st1 := { st with mmio_bus := r.2 }
        match r.1 with
        | some _ =>
          let st2 := if idx > 0 then st1.unregister_resources (full.take idx) else st1
          (.error .DeviceOverlap, st2)
        | none =>
          register_resources_loop create_group dev full rest (idx + 1) instance_id
            interrupt_group st1
      | .PhysicalMmio =>
        register_resources_loop create_group dev full rest (idx + 1) instance_id
          interrupt_group st
    | .Interrupt ty base count =>
      match create_group ty base count with
      | some group =>
        register_resources_loop create_group dev full rest (idx + 1) instance_id
          (some group) st
      | none =>
        let st2 := if idx > 0 then st.unregister_resources (full.take idx) else st
        (.error .IrqSrcGrpCreateError, st2)
    | .Id i =>
      register_resources_loop create_group dev full rest (idx + 1) i interrupt_group st

/-- `DeviceManager::register_resources`. -/
def DeviceManager.register_resources (self : DeviceManager)
    (create_group : Nat → Nat → Nat → Option Nat) (dev : device.Device)
    (resources : List device.VmResource) :
    Except Error (Nat × Option Nat) × DeviceManager :=
  register_resources_loop create_group dev.id resources resources 0 0 none self

/-- `DeviceManager::register_device`: register the resources, then build the
descriptor keyed by the device's reported name and `insert` it. -/
def DeviceManager.register_device (self : DeviceManager)
    (create_group : Nat → Nat → Nat → Option Nat) (dev : device.Device)
    (parent_bus : Option Nat) (resources : List device.VmResource) :
    Except Error Unit × DeviceManager :=
  match self.register_resources create_group dev resources with
  | (.error e, st) => (.error e, st)
  | (.ok _, st) =>
    let descriptor : device.DeviceDescriptor :=
      { name := dev.name, device := dev.id, parent_bus := parent_bus,
        resources := resources }
    st.insert descriptor

/-- `DeviceManager::unregister_device`. -/
def DeviceManager.unregister_device (self : DeviceManager) (dev : device.Device) :
    Except Error Unit × DeviceManager :=
  match self.remove dev.name with
  | (some descriptor, st) => (.ok (), st.unregister_resources descriptor.resources)
  | (none, st) => (.error .DeviceNonExist, st)

end device_manager

/-- Specification-side mathematical align-up: the smallest multiple of
`alignment` at or above `address`, total over `Nat` (no 64-bit wrap). -/
def alignUp (alignment address : Nat) : Nat :=
  if address % alignment = 0 then address else address + (alignment - address % alignment)

/-- The intervals `[p.1, p.1 + p.2)` and `[q.1, q.1 + q.2)` intersect. -/
def rangesOverlap (p q : Nat × Nat) : Prop :=
  q.1 < p.1 + p.2 ∧ p.1 < q.1 + q.2

instance (p q : Nat × Nat) : Decidable (rangesOverlap p q) :=
  inferInstanceAs (Decidable (_ ∧ _))

/-- Specification-side: the end of the live range immediately preceding `req`
in a key-sorted ranges list (`init` when no live range starts below `req`). -/
def specPrevEnd (req init : Nat) (l : List (Nat × Nat)) : Nat :=
  match (l.filter (fun p => p.1 < req)).getLast? with
  | none => init
  | some p => p.1 + p.2

/-- Specification-side: the smallest value of `[start, end]` not in `used`. -/
def smallestUnused (start end_ : Nat) (used : List Nat) : Option Nat :=
  (List.range' start (end_ + 1 - start)).find? (fun v => !(decide (v ∈ used)))

/-- Membership in a sorted insertion. -/
theorem mem_sortInsert (w x : Nat) (l : List Nat) :
    w ∈ id.sortInsert x l ↔ w = x ∨ w ∈ l := by
  induction l with
  | nil => simp [id.sortInsert]
  | cons y rest ih =>
    simp only [id.sortInsert]
    split
    · simp
    · simp only [List.mem_cons, ih]
      tauto

/-- Insertion sort preserves membership. -/
theorem mem_sortList (w : Nat) (l : List Nat) : w ∈ id.sortList l ↔ w ∈ l := by
  induction l with
  | nil => simp [id.sortList]
  | cons x rest ih =>
    rw [show id.sortList (x :: rest) = id.sortInsert x (id.sortList rest) from rfl,
        mem_sortInsert, ih]
    simp

/-- C1: the spec's no-overlap invariant fails on the code. Over the managed
region `[0x1f00, 0x2010)` with alignment `0x100` (an end bound that is not a
multiple of the alignment), two successive wildcard `allocate` calls both
succeed and leave the live ranges `(0x1f00, 0x110)` and `(0x2000, 0x80)` in
the map, and the intervals `[0x1f00, 0x2010)` and `[0x2000, 0x2080)`
intersect: aligning the zero-size end marker up past the bound makes the
wrapping subtraction in `first_available_range` produce a huge spurious gap. -/
theorem C1_no_overlap_violation :
    ∃ A0 A1 A2 : address.AddressAllocator,
      address.AddressAllocator.new 0x1f00 0x110 (some 0x100) = some A0 ∧
      A0.allocate none 0x110 = (.ok 0x1f00, A1) ∧
      A1.allocate none 0x80 = (.ok 0x2000, A2) ∧
      (0x1f00, 0x110) ∈ A2.ranges ∧ (0x2000, 0x80) ∈ A2.ranges ∧
      (0x1f00, 0x110) ≠ ((0x2000, 0x80) : Nat × Nat) ∧
      rangesOverlap (0x1f00, 0x110) (0x2000, 0x80) := by
  refine ⟨⟨0x1f00, 0x200f, 0x100, [(0x2010, 0)]⟩,
          ⟨0x1f00, 0x200f, 0x100, [(0x1f00, 0x110), (0x2010, 0)]⟩,
          ⟨0x1f00, 0x200f, 0x100, [(0x1f00, 0x110), (0x2000, 0x80), (0x2010, 0)]⟩,
          rfl, rfl, rfl, ?_, ?_, ?_, ?_⟩ <;> decide

/-- C2: on a dispatch-map insertion collision the dispatch maps are NOT left
as they were before the call. A `DeviceManager` whose PIO bus maps range
`(0x60, 1)` to device 1 is asked to register device 2 at the same port: the
call fails with `DeviceOverlap`, but `BTreeMap::insert` has already replaced
the stored value, so after the call the PIO bus maps `(0x60, 1)` to device 2. -/
theorem C2_rollback_leaves_overwritten_entry :
    ∃ st' : device_manager.DeviceManager,
      device_manager.DeviceManager.register_resources ⟨[], [], [(0x60, 1, 1)]⟩
        (fun _ _ _ => some 0) ⟨2, "b"⟩ [.Address 0x60 1 .Pio] =
        (.error .DeviceOverlap, st') ∧
      st'.pio_bus = [(0x60, 1, 2)] ∧
      st'.pio_bus ≠ [(0x60, 1, 1)] :=
  ⟨⟨[], [], [(0x60, 1, 2)]⟩, rfl, rfl, by decide⟩

/-- C3 counterexample: a one-byte range legally allocated at the allocator's
inclusive `end` address (`0x2000`, one below the terminal marker `0x2001`)
cannot be freed: `free(0x2000, 1)` is a no-op even though the live range
`(0x2000, 1)` matches exactly and `0x2000` is not the terminal marker. -/
theorem C3_counterexample :
    ∃ A0 A1 : address.AddressAllocator,
      address.AddressAllocator.new 0x1000 0x1001 none = some A0 ∧
      A0.allocate (some 0x2000) 1 = (.ok 0x2000, A1) ∧
      btreeGet 0x2000 A1.ranges = some 1 ∧
      (0x2001, 0) ∈ A1.ranges ∧ (0x2000 : Nat) ≠ 0x2001 ∧
      A1.free 0x2000 1 = A1 ∧
      btreeGet 0x2000 (A1.free 0x2000 1).ranges = some 1 := by
  refine ⟨⟨0x1000, 0x2000, 4, [(0x2001, 0)]⟩,
          ⟨0x1000, 0x2000, 4, [(0x2000, 1), (0x2001, 0)]⟩,
          rfl, rfl, rfl, ?_, ?_, rfl, rfl⟩ <;> decide

/-- C3 (amended): `free(addr, size)` removes a range if and only if a live
range with exactly that start and size exists AND `addr` is not the
allocator's inclusive `end` address AND `size` is nonzero; in every other
case the call is a no-op and the allocator state is unchanged. (The code
guards on `end`, one below the terminal marker, so an exactly-matching
one-byte range at `end` is also a silent no-op.) -/
theorem C3_exact_free_amended (a : address.AddressAllocator) (addr size : Nat) :
    a.free addr size =
      if addr ≠ a.end_ ∧ size ≠ 0 ∧ btreeGet addr a.ranges = some size
      then { a with ranges := btreeRemove addr a.ranges }
      else a := by
  unfold address.AddressAllocator.free
  by_cases h1 : addr = a.end_
  · simp [h1]
  · by_cases h2 : size = 0
    · simp [h2]
    · simp only [h1, h2, false_or, or_false, if_neg, not_false_iff, ne_eq,
        not_false_eq_true, true_and]
      cases hg : btreeGet addr a.ranges with
      | none => simp [h1, h2, hg]
      | some range_size =>
        by_cases h3 : size = range_size
        · subst h3; simp [h1, h2, hg]
        · simp [h1, h2, hg, h3, Ne.symm h3]

/-- C4: for a fresh allocator over `[0x1000, 0x11000)` with alignment
`0x100`, `allocate(None, 0x110)` returns `0x10e00` and the subsequent
`allocate(None, 0x100)` returns `0x10d00` (high-end accumulation). -/
theorem C4_high_end_accumulation :
    ∃ p0 p1 p2 : address.AddressAllocator,
      address.AddressAllocator.new 0x1000 0x10000 (some 0x100) = some p0 ∧
      p0.allocate none 0x110 = (.ok 0x10e00, p1) ∧
      p1.allocate none 0x100 = (.ok 0x10d00, p2) :=
  ⟨⟨0x1000, 0x10fff, 0x100, [(0x11000, 0)]⟩,
   ⟨0x1000, 0x10fff, 0x100, [(0x10e00, 0x110), (0x11000, 0)]⟩,
   ⟨0x1000, 0x10fff, 0x100, [(0x10d00, 0x100), (0x10e00, 0x110), (0x11000, 0)]⟩,
   rfl, rfl, rfl⟩

/-- C6: a successful wildcard allocation can escape the managed region. For
the allocator over `[0x1000, 0x2010)` (so `base + size = 0x2010` is not a
multiple of the alignment `0x100`), `allocate(None, 0x100)` succeeds and
returns `0x2000`, but `0x2000 + 0x100 - 1 = 0x20ff` lies beyond the managed
inclusive end `0x200f`: `first_available_range` aligns the unaligned end
marker up past the bound before placing the range. -/
theorem C6_containment_violation :
    ∃ A0 A1 : address.AddressAllocator,
      address.AddressAllocator.new 0x1000 0x1010 (some 0x100) = some A0 ∧
      (0x1000 + 0x1010) % 0x100 ≠ 0 ∧
      A0.base = 0x1000 ∧ A0.end_ = 0x200f ∧
      A0.allocate none 0x100 = (.ok 0x2000, A1) ∧
      A0.end_ < 0x2000 + 0x100 - 1 := by
  refine ⟨⟨0x1000, 0x200f, 0x100, [(0x2010, 0)]⟩,
          ⟨0x1000, 0x200f, 0x100, [(0x2000, 0x100), (0x2010, 0)]⟩,
          rfl, ?_, rfl, rfl, rfl, ?_⟩ <;> decide

/-- C5 counterexample: for the allocator over the topmost `0xff` bytes of the
u64 space with alignment `0x100`, the exact-placement request at the unaligned
in-bounds address `u64::MAX - 1` fails with `Overflow`, not with the
`UnalignedAddress` the claim requires for a request whose align-up differs
from it: `align_address` overflows u64 and the code maps that to `Overflow`
before the unaligned check is reached. -/
theorem C5_counterexample :
    ∃ A : address.AddressAllocator,
      address.AddressAllocator.new 18446744073709551360 0xff (some 0x100) = some A ∧
      A.base ≤ 18446744073709551614 ∧ 18446744073709551614 ≤ A.end_ ∧
      alignUp A.alignment 18446744073709551614 ≠ 18446744073709551614 ∧
      A.allocate (some 18446744073709551614) 1 = (.error .Overflow, A) ∧
      address.Error.Overflow ≠ address.Error.UnalignedAddress := by
  refine ⟨⟨18446744073709551360, 18446744073709551614, 0x100,
           [(18446744073709551615, 0)]⟩, rfl, ?_, ?_, ?_, rfl, ?_⟩ <;> decide

/-- C7 counterexample: `SystemAllocator::allocate_id` does not dispatch to the
allocator registered under the requested name. Whatever id pool is registered
under `"id"` — `[1, 100]` with nothing used, or `[20, 30]` — the call returns
the constant id `10` and leaves the registry (including the named allocator's
used set) unchanged; for the `[20, 30]` pool the value `10` is outside the
pool's bounds, and the pool's own allocator would have produced `20`. -/
theorem C7_counterexample :
    (system.SystemAllocator.allocate_id ⟨[], [("id", ⟨1, 100, []⟩)]⟩ "id" =
      (.ok 10, ⟨[], [("id", ⟨1, 100, []⟩)]⟩)) ∧
    (system.SystemAllocator.allocate_id ⟨[], [("id", ⟨20, 30, []⟩)]⟩ "id" =
      (.ok 10, ⟨[], [("id", ⟨20, 30, []⟩)]⟩)) ∧
    ((10 : Nat) < 20 ∨ (10 : Nat) > 30) ∧
    (id.IdAllocator.allocate ⟨20, 30, []⟩ none).1 = .ok 20 ∧
    (Except.ok 10 : Except resource.Error Nat) ≠ .ok 20 :=
  ⟨rfl, rfl, by decide, rfl, by simp⟩

/-- C7 (amended): `allocate_id` ignores the requested allocator name and the
registered pools: for every `SystemAllocator` state and every name it returns
`Ok(Id(10))` and leaves the whole `SystemAllocator` unchanged. -/
theorem C7_allocate_id_constant (s : system.SystemAllocator) (n : String) :
    s.allocate_id n = (.ok 10, s) := rfl

/-- C8 counterexample: for the `IdAllocator` over `[1, 100]`, the exact
request for `200` (outside the managed bound) fails with `OutofScope`, not
with the `Invalid` error kind the claim names (the enum distinguishes the
two variants; `Invalid` is reserved for a wrong resource kind). -/
theorem C8_counterexample :
    (id.IdAllocator.allocate ⟨1, 100, []⟩ (some ⟨"id", 200⟩)) =
      (.error .OutofScope, ⟨1, 100, []⟩) ∧
    resource.Error.OutofScope ≠ resource.Error.Invalid :=
  ⟨rfl, by decide⟩

/-- C8 (amended): for every `IdAllocator` over `[start, end]` and every exact
request for a value `v` (an `"id"`-kind resource): if `v < start` or `v > end`
the call fails with the `OutofScope` error kind (not `Invalid`, which the enum
reserves for a wrong resource kind); if `v` is already used it fails with
`Duplicated`; otherwise it succeeds, returns `v`, and adds `v` to the used
set, leaving the failed calls' state unchanged. -/
theorem C8_exact_id_amended (a : id.IdAllocator) (v : Nat) :
    (v < a.start ∨ v > a.end_ →
      a.allocate (some ⟨"id", v⟩) = (.error .OutofScope, a)) ∧
    (a.start ≤ v → v ≤ a.end_ → v ∈ a.used →
      a.allocate (some ⟨"id", v⟩) = (.error .Duplicated, a)) ∧
    (a.start ≤ v → v ≤ a.end_ → v ∉ a.used →
      (a.allocate (some ⟨"id", v⟩)).1 = .ok v ∧
      ∀ w, w ∈ (a.allocate (some ⟨"id", v⟩)).2.used ↔ (w ∈ a.used ∨ w = v)) := by
  refine ⟨?_, ?_, ?_⟩
  · intro h
    unfold id.IdAllocator.allocate
    simp [id.IdAllocator.name, h]
  · intro h1 h2 h3
    unfold id.IdAllocator.allocate
    have hrange : ¬ (v < a.start ∨ v > a.end_) := by omega
    cases hf : a.used.find? (fun x => x == v) with
    | none =>
      exact absurd ((List.find?_eq_none.mp hf) v h3) (by simp)
    | some y =>
      simp [id.IdAllocator.name, hrange, hf]
  · intro h1 h2 h3
    unfold id.IdAllocator.allocate
    have hrange : ¬ (v < a.start ∨ v > a.end_) := by omega
    have hf : a.used.find? (fun x => x == v) = none := by
      rw [List.find?_eq_none]
      intro x hx
      simp only [beq_iff_eq]
      intro hxv
      exact h3 (hxv ▸ hx)
    refine ⟨by simp [id.IdAllocator.name, hrange, hf], ?_⟩
    intro w
    simp [id.IdAllocator.name, hrange, hf, mem_sortList]

/-- C8 witness: instantiating the amended exact-request contract on the
allocator over `[1, 100]` with `2` used: requesting `200` fails with
`OutofScope`, requesting `2` fails with `Duplicated`, and requesting `5`
succeeds with the used set growing to contain `5`. -/
theorem C8_witness :
    (id.IdAllocator.allocate ⟨1, 100, [2]⟩ (some ⟨"id", 200⟩) =
      (.error .OutofScope, ⟨1, 100, [2]⟩)) ∧
    (id.IdAllocator.allocate ⟨1, 100, [2]⟩ (some ⟨"id", 2⟩) =
      (.error .Duplicated, ⟨1, 100, [2]⟩)) ∧
    (id.IdAllocator.allocate ⟨1, 100, [2]⟩ (some ⟨"id", 5⟩)).1 = .ok 5 ∧
    (5 ∈ (id.IdAllocator.allocate ⟨1, 100, [2]⟩ (some ⟨"id", 5⟩)).2.used ∨ False) := by
  refine ⟨(C8_exact_id_amended ⟨1, 100, [2]⟩ 200).1 (by decide),
          (C8_exact_id_amended ⟨1, 100, [2]⟩ 2).2.1 (by decide) (by decide) (by decide),
          ((C8_exact_id_amended ⟨1, 100, [2]⟩ 5).2.2 (by decide) (by decide)
            (by decide)).1, ?_⟩
  left
  exact (((C8_exact_id_amended ⟨1, 100, [2]⟩ 5).2.2 (by decide) (by decide)
    (by decide)).2 5).mpr (Or.inr rfl)

/-- `find?` only depends on the predicate's values on the list's members. -/
theorem find?_congr_pred {α : Type} (p q : α → Bool) (l : List α)
    (h : ∀ x ∈ l, p x = q x) : l.find? p = l.find? q := by
  induction l with
  | nil => rfl
  | cons x rest ih =>
    rw [List.find?_cons, List.find?_cons, h x (List.mem_cons_self x rest)]
    cases hq : q x with
    | true => rfl
    | false => exact ih (fun y hy => h y (List.mem_cons_of_mem x hy))

/-- The scan loop of `first_usable_number` returns the smallest number at or
above `previous` that is not used (or `Overflow` when none fits below `end_`),
whenever the used list is strictly ascending, bounded by `end_`, and entirely
at or above `previous`. -/
theorem first_usable_number_loop_eq (end_ : Nat) (h_end : end_ < id.U32)
    (used : List Nat) :
    ∀ (previous : Nat), List.Pairwise (· < ·) used →
      (∀ x ∈ used, previous ≤ x ∧ x ≤ end_) →
      id.first_usable_number_loop end_ previous used =
        match (List.range' previous (end_ + 1 - previous)).find?
            (fun w => !(decide (w ∈ used))) with
        | some w => .ok w
        | none => .error .Overflow := by
  induction used with
  | nil =>
    intro previous _ _
    simp only [id.first_usable_number_loop]
    by_cases h : previous ≤ end_
    · have hn : end_ + 1 - previous = (end_ - previous) + 1 := by omega
      rw [hn, List.range'_succ]
      simp [h]
    · have hn : end_ + 1 - previous = 0 := by omega
      rw [hn]
      simp [h]
  | cons x rest ih =>
    intro previous hp hb
    have hxe : x ≤ end_ := (hb x (List.mem_cons_self x rest)).2
    have hpx : previous ≤ x := (hb x (List.mem_cons_self x rest)).1
    by_cases hgt : x > previous
    · have hpe : previous ≤ end_ := by omega
      have hn : end_ + 1 - previous = (end_ - previous) + 1 := by omega
      simp only [id.first_usable_number_loop, if_pos hgt]
      rw [hn, List.range'_succ, List.find?_cons]
      have hnotmem : previous ∉ (x :: rest) := by
        intro hmem
        rcases List.mem_cons.mp hmem with h | h
        · omega
        · have := (hb previous (List.mem_cons_of_mem x h)).1
          have hlt := (List.pairwise_cons.mp hp).1 previous h
          omega
      simp [hnotmem]
    · have hxp : x = previous := by omega
      subst hxp
      simp only [id.first_usable_number_loop, if_neg hgt]
      by_cases hof : x + 1 < id.U32
      · rw [if_pos hof]
        have hrest_sorted := (List.pairwise_cons.mp hp).2
        have hrest_gt := (List.pairwise_cons.mp hp).1
        have hrest_b : ∀ y ∈ rest, x + 1 ≤ y ∧ y ≤ end_ := by
          intro y hy
          exact ⟨hrest_gt y hy, (hb y (List.mem_cons_of_mem x hy)).2⟩
        rw [ih (x + 1) hrest_sorted hrest_b]
        have hn : end_ + 1 - x = (end_ - x) + 1 := by omega
        rw [hn, List.range'_succ, List.find?_cons]
        have hself : (!(decide (x ∈ (x :: rest)))) = false := by simp
        rw [hself]
        have hn2 : end_ + 1 - (x + 1) = end_ - x := by omega
        rw [hn2]
        have hcongr : (List.range' (x + 1) (end_ - x)).find?
            (fun w => !(decide (w ∈ (x :: rest)))) =
            (List.range' (x + 1) (end_ - x)).find? (fun w => !(decide (w ∈ rest))) := by
          apply find?_congr_pred
          intro w hw
          have hw1 : x + 1 ≤ w := (List.mem_range'_1.mp hw).1
          have : (w ∈ (x :: rest)) ↔ (w ∈ rest) := by
            rw [List.mem_cons]
            constructor
            · rintro (h | h)
              · omega
              · exact h
            · exact Or.inr
          rw [decide_eq_decide.mpr this]
        rw [hcongr]
      · rw [if_neg hof]
        have hx1 : x = id.U32 - 1 := by
          unfold id.U32 at *
          omega
        have hxend : end_ = x := by
          unfold id.U32 at *
          omega
        have hn : end_ + 1 - x = 1 := by omega
        rw [hn, List.range'_succ]
        simp

/-- C10: for an `IdAllocator` over `[1, 100]`, after exact allocations of `1`
and `3` succeed, `allocate(None)` returns `2`; and in general, for any
allocator state whose used list is strictly ascending and within the managed
`[start, end]` bounds (with `start ≤ end` and `end` a u32 value), a wildcard
allocation returns the smallest value of `[start, end]` not in the used set,
or `Overflow` when no such value exists (the used set fills the space). -/
theorem C10_wildcard_smallest_free :
    (∃ p1 p2 : id.IdAllocator,
      id.IdAllocator.new 1 100 = some ⟨1, 100, []⟩ ∧
      id.IdAllocator.allocate ⟨1, 100, []⟩ (some ⟨"id", 1⟩) = (.ok 1, p1) ∧
      p1.allocate (some ⟨"id", 3⟩) = (.ok 3, p2) ∧
      (p2.allocate none).1 = .ok 2) ∧
    (∀ a : id.IdAllocator,
      List.Pairwise (· < ·) a.used →
      (∀ x ∈ a.used, a.start ≤ x ∧ x ≤ a.end_) →
      a.start ≤ a.end_ → a.end_ < id.U32 →
      (match smallestUnused a.start a.end_ a.used with
       | some w => (a.allocate none).1 = .ok w
       | none => (a.allocate none).1 = .error .Overflow)) := by
  constructor
  · exact ⟨⟨1, 100, [1]⟩, ⟨1, 100, [1, 3]⟩, rfl, rfl, rfl, rfl⟩
  · intro a hsorted hbounds hse hu32
    have hfun : a.first_usable_number =
        match smallestUnused a.start a.end_ a.used with
        | some w => .ok w
        | none => .error .Overflow := by
      unfold id.IdAllocator.first_usable_number
      cases hused : a.used with
      | nil =>
        simp only [List.isEmpty_nil, if_pos]
        unfold smallestUnused
        have hn : a.end_ + 1 - a.start = (a.end_ - a.start) + 1 := by omega
        rw [hn, List.range'_succ]
        simp
      | cons x rest =>
        simp only [List.isEmpty_cons, if_neg, Bool.false_eq_true, not_false_eq_true]
        unfold smallestUnused
        rw [← hused]
        exact first_usable_number_loop_eq a.end_ hu32 a.used a.start hsorted hbounds
    cases hsm : smallestUnused a.start a.end_ a.used with
    | some w =>
      rw [hsm] at hfun
      simp only [id.IdAllocator.allocate, hfun]
    | none =>
      rw [hsm] at hfun
      simp only [id.IdAllocator.allocate, hfun]

/-- C10 witness: applying the general wildcard contract to the allocator over
`[1, 100]` with used set `[1, 3]` yields id `2`, the smallest free value. -/
theorem C10_witness :
    (id.IdAllocator.allocate ⟨1, 100, [1, 3]⟩ none).1 = .ok 2 := by
  have h := C10_wildcard_smallest_free.2 ⟨1, 100, [1, 3]⟩ (by decide) (by decide)
    (by decide) (by decide)
  exact h

/-- Wrapping u64 subtraction agrees with truncated subtraction below u64. -/
theorem wsub_eq_sub (a b : Nat) (hba : b ≤ a) (ha : a < U64) : wsub a b = a - b := by
  unfold wsub
  have hb : b < U64 := by omega
  rw [Nat.mod_eq_of_lt hb]
  have h1 : a + (U64 - b) = U64 + (a - b) := by omega
  rw [h1, Nat.add_mod_left, Nat.mod_eq_of_lt (by omega)]

/-- Wrapping u64 addition agrees with addition below u64. -/
theorem wadd_eq_add (a b : Nat) (h : a + b < U64) : wadd a b = a + b :=
  Nat.mod_eq_of_lt h

/-- `align_address` computes the mathematical align-up of the address,
failing exactly when that value overflows u64. -/
theorem align_address_eq (al x : Nat) :
    address.align_address al x =
      if alignUp al x < U64 then some (alignUp al x) else none := by
  unfold address.align_address alignUp checked_add
  by_cases h : x % al = 0
  · simp [h]
  · simp [h]

/-- Peeling a preceding range off `specPrevEnd`. -/
theorem specPrevEnd_cons (req init a s : Nat) (rest : List (Nat × Nat))
    (h : a < req) :
    specPrevEnd req init ((a, s) :: rest) = specPrevEnd req (a + s) rest := by
  unfold specPrevEnd
  have hhead : List.filter (fun p => decide (p.1 < req)) ((a, s) :: rest) =
      (a, s) :: List.filter (fun p => decide (p.1 < req)) rest := by
    simp [List.filter_cons, h]
  rw [hhead]
  cases hf : rest.filter (fun p => decide (p.1 < req)) with
  | nil => simp
  | cons c cs =>
    rw [List.getLast?_cons_cons]
    cases hg : (c :: cs).getLast? with
    | none => exact absurd (List.getLast?_eq_none_iff.mp hg) (by simp)
    | some p => rfl

/-- The scan loop of `available_range`, characterised by the first live range
`R` starting at or after the request and the end of the immediately preceding
range, for a strictly key-sorted ranges list whose entries do not wrap u64. -/
theorem available_range_loop_eq (req size : Nat) :
    ∀ (l : List (Nat × Nat)) (init : Nat) (R : Nat × Nat),
      List.Pairwise (fun p q : Nat × Nat => p.1 < q.1) l →
      (∀ p ∈ l, p.1 + p.2 < U64) →
      l.find? (fun p => decide (req ≤ p.1)) = some R →
      address.available_range_loop req size init l =
        (if specPrevEnd req init l > req ∨ R.1 - req < size
         then .error .Overlap else .ok req) := by
  intro l
  induction l with
  | nil => intro init R _ _ hR; exact absurd hR (by simp)
  | cons hd rest ih =>
    intro init R hsorted hnowrap hR
    obtain ⟨a, s⟩ := hd
    have hanw : a + s < U64 := hnowrap (a, s) (List.mem_cons_self _ _)
    by_cases hle : req ≤ a
    · have hpred : (decide (req ≤ (a, s).1)) = true := by simpa using hle
      rw [List.find?_cons] at hR
      simp only [hpred] at hR
      injection hR with hR
      subst hR
      have hspe : specPrevEnd req init ((a, s) :: rest) = init := by
        unfold specPrevEnd
        rw [List.filter_cons]
        have hhead : (decide ((a, s).1 < req)) = false := by
          simp
          omega
        rw [hhead]
        have hrest : rest.filter (fun p => decide (p.1 < req)) = [] := by
          rw [List.filter_eq_nil_iff]
          intro p hp
          have := (List.pairwise_cons.mp hsorted).1 p hp
          simp
          omega
        simp [hrest]
      simp only [address.available_range_loop, if_pos hle]
      rw [hspe, wsub_eq_sub a req hle (by omega)]
      by_cases h1 : init > req
      · simp [h1]
      · by_cases h2 : a - req < size
        · simp [h1, h2]
        · simp [h1, h2]
    · have ha : a < req := by omega
      have hpred : (decide (req ≤ (a, s).1)) = false := by simpa using hle
      rw [List.find?_cons] at hR
      simp only [hpred] at hR
      simp only [address.available_range_loop, if_neg hle]
      rw [wadd_eq_add a s hanw, specPrevEnd_cons req init a s rest ha]
      exact ih (a + s) R (List.pairwise_cons.mp hsorted).2
        (fun p hp => hnowrap p (List.mem_cons_of_mem _ hp)) hR

/-- `available_range`, characterised as the claim describes it, with the
align-up-overflow case (which the source maps to `Overflow`) split out. -/
theorem available_range_eq (a : address.AddressAllocator) (req size : Nat)
    (h_sorted : List.Pairwise (fun p q : Nat × Nat => p.1 < q.1) a.ranges)
    (h_nowrap : ∀ p ∈ a.ranges, p.1 + p.2 < U64)
    (h_marker : ∃ p ∈ a.ranges, a.end_ < p.1) :
    a.available_range req size =
      if U64 ≤ alignUp a.alignment req then .error .Overflow
      else if alignUp a.alignment req ≠ req then .error .UnalignedAddress
      else if req > a.end_ ∨ req < a.base then .error .Overflow
      else
        match a.ranges.find? (fun p => decide (req ≤ p.1)) with
        | none => .error .Overflow
        | some R =>
          if specPrevEnd req a.base a.ranges > req ∨ R.1 - req < size
          then .error .Overlap else .ok req := by
  unfold address.AddressAllocator.available_range
  rw [align_address_eq]
  by_cases hov : alignUp a.alignment req < U64
  · rw [if_pos hov]
    dsimp only
    rw [if_neg (show ¬ U64 ≤ alignUp a.alignment req by omega)]
    by_cases hal : alignUp a.alignment req = req
    · have hne : ¬ (alignUp a.alignment req ≠ req) := fun h => h hal
      rw [if_neg hne, if_neg hne, hal]
      by_cases hb3 : req > a.end_ ∨ req < a.base
      · rw [if_pos hb3, if_pos hb3]
      · rw [if_neg hb3, if_neg hb3]
        have hfind : (a.ranges.find? (fun p => decide (req ≤ p.1))).isSome := by
          rw [List.find?_isSome]
          obtain ⟨P, hPmem, hPgt⟩ := h_marker
          refine ⟨P, hPmem, ?_⟩
          simp
          omega
        obtain ⟨R, hR⟩ := Option.isSome_iff_exists.mp hfind
        rw [hR]
        exact available_range_loop_eq req size a.ranges a.base R h_sorted
          h_nowrap hR
    · have hne : alignUp a.alignment req ≠ req := hal
      rw [if_pos hne, if_pos hne]
  · rw [if_neg hov]
    dsimp only
    rw [if_pos (show U64 ≤ alignUp a.alignment req by omega)]

/-- C5 (amended): for every allocator state with strictly key-sorted,
non-wrapping live ranges and the terminal marker beyond `end`, an
exact-placement `allocate(Some(req), size)` with `size > 0` behaves as: if
aligning `req` up overflows the u64 space the call fails with `Overflow`;
otherwise if the align-up changes the value, `UnalignedAddress`; otherwise if
`req` is outside `[base, end]`, `Overflow`; otherwise, with `R` the first live
range (terminal marker included) starting at or after `req`, if `req` lies
inside the preceding range's extent or the space before `R` is smaller than
`size`, `Overlap`; otherwise `(req, size)` is inserted and `req` returned. -/
theorem C5_exact_placement_amended (a : address.AddressAllocator) (req size : Nat)
    (h_size : 0 < size) (_h_req : req < U64)
    (h_sorted : List.Pairwise (fun p q : Nat × Nat => p.1 < q.1) a.ranges)
    (h_nowrap : ∀ p ∈ a.ranges, p.1 + p.2 < U64)
    (h_marker : ∃ p ∈ a.ranges, a.end_ < p.1) :
    a.allocate (some req) size =
      if U64 ≤ alignUp a.alignment req then (.error .Overflow, a)
      else if alignUp a.alignment req ≠ req then (.error .UnalignedAddress, a)
      else if req > a.end_ ∨ req < a.base then (.error .Overflow, a)
      else
        match a.ranges.find? (fun p => decide (req ≤ p.1)) with
        | none => (.error .Overflow, a)
        | some R =>
          if specPrevEnd req a.base a.ranges > req ∨ R.1 - req < size
          then (.error .Overlap, a)
          else (.ok req, { a with ranges := btreeInsert req size a.ranges }) := by
  have hsz : ¬ size = 0 := by omega
  have havail := available_range_eq a req size h_sorted h_nowrap h_marker
  unfold address.AddressAllocator.allocate
  rw [if_neg hsz]
  dsimp only
  rw [havail]
  by_cases h1 : U64 ≤ alignUp a.alignment req
  · rw [if_pos h1, if_pos h1]
  · rw [if_neg h1, if_neg h1]
    by_cases h2 : alignUp a.alignment req ≠ req
    · rw [if_pos h2, if_pos h2]
    · rw [if_neg h2, if_neg h2]
      by_cases h3 : req > a.end_ ∨ req < a.base
      · rw [if_pos h3, if_pos h3]
      · rw [if_neg h3, if_neg h3]
        cases hR : a.ranges.find? (fun p => decide (req ≤ p.1)) with
        | none => rfl
        | some R =>
          dsimp only
          by_cases h4 : specPrevEnd req a.base a.ranges > req ∨ R.1 - req < size
          · rw [if_pos h4, if_pos h4]
          · rw [if_neg h4, if_neg h4]

/-- C5 witness: instantiating the amended exact-placement contract on the
allocator over `[0x1000, 0x11000)` with alignment `0x100` and only the
terminal marker live: the request `(0x2000, 0x100)` is aligned, in bounds and
fits before the marker, so it is inserted and returned. -/
theorem C5_witness :
    address.AddressAllocator.allocate ⟨0x1000, 0x10fff, 0x100, [(0x11000, 0)]⟩
      (some 0x2000) 0x100 =
      (.ok 0x2000, ⟨0x1000, 0x10fff, 0x100, [(0x2000, 0x100), (0x11000, 0)]⟩) := by
  have h := C5_exact_placement_amended ⟨0x1000, 0x10fff, 0x100, [(0x11000, 0)]⟩
    0x2000 0x100 (by decide) (by decide) (by decide) (by decide) (by decide)
  exact h.trans rfl

/-- C9: when `register_device` reaches the descriptor-recording step and the
device's reported name already keys an existing descriptor, the call returns
the `DeviceExist` error but does not undo the earlier steps: the state after
the call is exactly the state `register_resources` produced, with every
dispatch-map entry inserted for this device's resources still present. -/
theorem C9_duplicate_name_no_rollback
    (create_group : Nat → Nat → Nat → Option Nat) (dev : device.Device)
    (parent_bus : Option Nat) (resources : List device.VmResource)
    (st st' : device_manager.DeviceManager) (v : Nat × Option Nat)
    (h_reg : st.register_resources create_group dev resources = (.ok v, st'))
    (h_name : (st'.devices.lookup dev.name).isSome = true) :
    st.register_device create_group dev parent_bus resources =
      (.error .DeviceExist, st') := by
  unfold device_manager.DeviceManager.register_device
  rw [h_reg]
  simp [device_manager.DeviceManager.insert, h_name]

/-- C9 witness: a manager already holding a descriptor named `"d"` registers
a fresh MMIO range for a new device also reporting name `"d"`; the call fails
with `DeviceExist` while the freshly inserted MMIO dispatch entry
`(0x1000, 0x100) → device 7` stays in the map. -/
theorem C9_witness :
    device_manager.DeviceManager.register_device
      ⟨[("d", ⟨"d", 9, none, []⟩)], [], []⟩ (fun _ _ _ => some 0) ⟨7, "d"⟩ none
      [.Address 0x1000 0x100 .Mmio] =
      (.error .DeviceExist, ⟨[("d", ⟨"d", 9, none, []⟩)], [(0x1000, 0x100, 7)], []⟩) ∧
    (0x1000, 0x100, 7) ∈
      (device_manager.DeviceManager.register_device
        ⟨[("d", ⟨"d", 9, none, []⟩)], [], []⟩ (fun _ _ _ => some 0) ⟨7, "d"⟩ none
        [.Address 0x1000 0x100 .Mmio]).2.mmio_bus :=
  ⟨C9_duplicate_name_no_rollback (fun _ _ _ => some 0) ⟨7, "d"⟩ none
    [.Address 0x1000 0x100 .Mmio] ⟨[("d", ⟨"d", 9, none, []⟩)], [], []⟩
    ⟨[("d", ⟨"d", 9, none, []⟩)], [(0x1000, 0x100, 7)], []⟩ (0, none) rfl rfl,
   by decide⟩

end VmDevice
